import Mathlib

/-!
Shallow embedding of the AMR fleet-management simulation core
(`src/amr_dashboard.py`) and verification of its specification claims.

Modelling conventions:
* Python floats are modelled as real numbers (`ℝ`); the code's arithmetic
  (`np.sqrt`, `min`, `max`, comparisons) is the corresponding real arithmetic.
* Python objects mutated in place become values passed explicitly; the robot
  list of the fleet manager is a `List Robot`, and an in-place mutation of the
  robot at index `i` becomes `updateAt robots i f`.
* Python `Optional` fields become `Option`; dataclass `==` is structural
  equality of the embedded records.
* Fields of the source never read by the simulation core (`path`,
  `last_maintenance`, `created_time`, the fleet-level derived metrics
  `total_tasks_completed` / `fleet_efficiency`, and `PathPlanner`) are omitted:
  no claim mentions them and they do not feed back into any modelled state.
* `list.sort(key=priority, reverse=True)` is Python's stable sort; it is
  modelled by the stable `List.insertionSort` with the relation
  "has greater-or-equal priority" (any two stable sorts agree).
-/

open Classical

namespace AMR

/-- `RobotStatus` enum of the source. -/
inductive RobotStatus where
  | idle
  | moving
  | working
  | charging
  | maintenance
deriving DecidableEq

/-- `TaskType` enum of the source. -/
inductive TaskType where
  | pickup
  | delivery
  | inspection
  | cleaning
deriving DecidableEq

/-- `Position` dataclass: a 2D point with float (here: real) coordinates. -/
structure Position where
  x : ℝ
  y : ℝ

/-- `Position.distance_to`: Euclidean distance. -/
noncomputable def Position.distance_to (p other : Position) : ℝ :=
  Real.sqrt ((p.x - other.x) ^ 2 + (p.y - other.y) ^ 2)

/-- `Task` dataclass (the `created_time` timestamp is omitted: the core never
reads it). -/
structure Task where
  id : String
  task_type : TaskType
  start_pos : Position
  end_pos : Position
  priority : ℤ
  estimated_duration : ℝ
  assigned_robot : Option String := none

/-- `Robot` class state (fields `path` and `last_maintenance` omitted: never
read by the core). -/
structure Robot where
  id : String
  position : Position
  status : RobotStatus
  battery_level : ℝ
  max_battery : ℝ
  speed : ℝ
  current_task : Option Task
  total_distance_traveled : ℝ
  tasks_completed : ℕ
  target_position : Option Position

/-- `Robot.__init__`. -/
def mkRobot (robot_id : String) (initial_pos : Position) (max_battery : ℝ) : Robot where
  id := robot_id
  position := initial_pos
  status := .idle
  battery_level := max_battery
  max_battery := max_battery
  speed := 2.0
  current_task := none
  total_distance_traveled := 0.0
  tasks_completed := 0
  target_position := none

/-- `Robot.move_towards_target`: returns the updated robot together with the
boolean the method returns (`true` = arrived). -/
noncomputable def move_towards_target (r : Robot) (target : Position) (dt : ℝ) :
    Robot × Bool :=
  if r.battery_level ≤ 5 then
    ({ r with status := .charging }, false)
  else
    let distance := r.position.distance_to target
    if distance < 0.5 then
      ({ r with position := ⟨target.x, target.y⟩ }, true)
    else
      let move_distance := min (r.speed * dt) distance
      let direction_x := (target.x - r.position.x) / distance
      let direction_y := (target.y - r.position.y) / distance
      ({ r with
          position := ⟨r.position.x + direction_x * move_distance,
                       r.position.y + direction_y * move_distance⟩,
          total_distance_traveled := r.total_distance_traveled + move_distance,
          battery_level := max 0 (r.battery_level - move_distance * 0.1) },
        false)

/-- `Robot.assign_task`.  In the source the task object is aliased by
`current_task`, so the mutation `task.assigned_robot = self.id` is visible
through the robot's `current_task` field. -/
def assign_task (r : Robot) (task : Task) : Robot :=
  { r with
      current_task := some { task with assigned_robot := some r.id },
      status := .moving,
      target_position := some task.start_pos }

/-- `Robot.complete_current_task`. -/
def complete_current_task (r : Robot) : Robot :=
  match r.current_task with
  | some _ =>
      { r with
          tasks_completed := r.tasks_completed + 1,
          current_task := none,
          status := .idle,
          target_position := none }
  | none => r

/-- The sort relation used by `TaskScheduler.add_task`: descending priority
(`sort(key=lambda t: t.priority, reverse=True)`). -/
def prioGE (a b : Task) : Prop := b.priority ≤ a.priority

instance : DecidableRel prioGE := fun a b => inferInstanceAs (Decidable (_ ≤ _))

instance : IsTotal Task prioGE := ⟨fun a b => (le_total b.priority a.priority)⟩

instance : IsTrans Task prioGE := ⟨fun _ _ _ h1 h2 => le_trans h2 h1⟩

/-- `TaskScheduler.add_task`: append, then stable-sort by descending priority. -/
def add_task (pending : List Task) (task : Task) : List Task :=
  List.insertionSort prioGE (pending ++ [task])

/-- `list.remove(x)`: delete the first element structurally equal to `x`
(used by `assign_optimal_robot` on the pending list). -/
noncomputable def removeTask : List Task → Task → List Task
  | [], _ => []
  | t :: ts, x => if t = x then ts else t :: removeTask ts x

/-- Scheduler eligibility: `r.status == RobotStatus.IDLE and r.battery_level > 20`. -/
def eligible (r : Robot) : Prop := r.status = .idle ∧ 20 < r.battery_level

/-- The scheduler's cost: `distance(robot, task.start) + (100 - battery) * 0.1`. -/
noncomputable def score (r : Robot) (t : Task) : ℝ :=
  r.position.distance_to t.start_pos + (100 - r.battery_level) * 0.1

/-- The `available_robots` list-comprehension, paired with each robot's index
in the fleet list (the index stands for Python object identity). -/
noncomputable def availIdx : ℕ → List Robot → List (ℕ × Robot)
  | _, [] => []
  | i, r :: rs =>
      if eligible r then (i, r) :: availIdx (i + 1) rs else availIdx (i + 1) rs

/-- A candidate of the scheduler's double loop: robot index, robot, task. -/
abbrev Cand : Type := ℕ × Robot × Task

/-- Cost of a candidate. -/
noncomputable def candScore (c : Cand) : ℝ := score c.2.1 c.2.2

/-- One step of the `best_score` / `best_assignment` accumulation: replace the
best on a strictly smaller score (starting from `best_score = inf`, the first
candidate always wins, which the `none` case models). -/
noncomputable def bestStep (acc : Option (Cand × ℝ)) (c : Cand) : Option (Cand × ℝ) :=
  match acc with
  | none => some (c, candScore c)
  | some (b, s) => if candScore c < s then some (c, candScore c) else some (b, s)

/-- The candidates in the order the double loop visits them:
tasks outer (pending order), robots inner (`available_robots` order). -/
noncomputable def candidates (pending : List Task) (robots : List Robot) : List Cand :=
  pending.flatMap fun t => (availIdx 0 robots).map fun p => (p.1, p.2, t)

/-- `TaskScheduler.assign_optimal_robot`: returns the optional match (index of
the matched robot, its value, the matched task) and the pending list after the
call. -/
noncomputable def assign_optimal_robot (pending : List Task) (robots : List Robot) :
    Option Cand × List Task :=
  match pending with
  | [] => (none, pending)
  | _ :: _ =>
      match availIdx 0 robots with
      | [] => (none, pending)
      | _ :: _ =>
          match (candidates pending robots).foldl bestStep none with
          | none => (none, pending)
          | some (c, _) => (some c, removeTask pending c.2.2)

/-- The fixed charging-station list of `AMRFleetManager.__init__`. -/
def chargingStations : List Position := [⟨5, 5⟩, ⟨45, 5⟩, ⟨25, 25⟩]

/-- Python's `min(iterable, key=f)`: first element of minimal key. -/
noncomputable def minBy (f : Position → ℝ) : Position → List Position → Position
  | best, [] => best
  | best, s :: ss => if f s < f best then minBy f s ss else minBy f best ss

/-- `min(self.charging_stations, key=lambda s: robot.position.distance_to(s))`. -/
noncomputable def nearestStation (pos : Position) : Position :=
  minBy (pos.distance_to) ⟨5, 5⟩ [⟨45, 5⟩, ⟨25, 25⟩]

/-- The per-robot body of the `update_fleet` loop (the status-dependent
physics update of one robot). -/
noncomputable def updateRobot (dt : ℝ) (r : Robot) : Robot :=
  match r.status, r.target_position with
  | .moving, some tp =>
      let step := move_towards_target r tp dt
      if step.2 then
        match step.1.current_task with
        | some task =>
            if tp = task.start_pos then
              { step.1 with target_position := some task.end_pos, status := .working }
            else
              complete_current_task step.1
        | none => { step.1 with status := .idle }
      else step.1
  | .working, some tp =>
      let step := move_towards_target r tp dt
      if step.2 then complete_current_task step.1 else step.1
  | .charging, _ =>
      let tp := r.target_position.getD (nearestStation r.position)
      let r0 : Robot := { r with target_position := some tp }
      let step := move_towards_target r0 tp dt
      if step.2 then
        let charged : Robot :=
          { step.1 with
              battery_level := min step.1.max_battery (step.1.battery_level + 20 * dt) }
        if charged.max_battery * 0.9 ≤ charged.battery_level then
          { charged with status := .idle, target_position := none }
        else charged
      else step.1
  | _, _ => r

/-- Replace the element at index `i` by `f` of it (models Python's in-place
mutation of the robot object at index `i`). -/
def updateAt : List Robot → ℕ → (Robot → Robot) → List Robot
  | [], _, _ => []
  | r :: rs, 0, f => f r :: rs
  | r :: rs, i + 1, f => r :: updateAt rs i f

/-- The fleet-manager state the claims are about: the robot list and the
scheduler's pending list (charging stations are the fixed constant above;
derived metrics are recomputed from this state and carry no extra
information). -/
structure FleetState where
  robots : List Robot
  pending : List Task

/-- The assignment phase of `update_fleet`: one `assign_optimal_robot` call,
followed by `robot.assign_task(task)` on a match. -/
noncomputable def assignPhase (S : FleetState) : FleetState :=
  match assign_optimal_robot S.pending S.robots with
  | (none, _) => S
  | (some (i, _, t), pending') =>
      ⟨updateAt S.robots i (fun r => assign_task r t), pending'⟩

/-- `AMRFleetManager.update_fleet(dt)`: assignment phase, then the per-robot
update loop. -/
noncomputable def updateFleet (S : FleetState) (dt : ℝ) : FleetState :=
  let S' := assignPhase S
  ⟨S'.robots.map (updateRobot dt), S'.pending⟩

/-- `emergency_stop`: every robot forced to `IDLE` with target and task
cleared. -/
def emergencyStop (S : FleetState) : FleetState :=
  ⟨S.robots.map fun r =>
      { r with status := .idle, target_position := none, current_task := none },
    S.pending⟩

/-- `AMRControlPanel.charge_all` on one robot: battery below 90 forces
`CHARGING` with the target cleared. -/
noncomputable def chargeOne (r : Robot) : Robot :=
  if r.battery_level < 90 then
    { r with status := .charging, target_position := none }
  else r

/-- `AMRControlPanel.charge_all` (the `sendAllToCharge` capability; the
threshold is the hard-coded constant 90 of the source). -/
noncomputable def chargeAll (S : FleetState) : FleetState :=
  ⟨S.robots.map chargeOne, S.pending⟩

end AMR

namespace AMR

/-! ### Basic geometry of `Position.distance_to` -/

theorem distance_to_nonneg (p q : Position) : 0 ≤ p.distance_to q :=
  Real.sqrt_nonneg _

theorem distance_to_self (p : Position) : p.distance_to p = 0 := by
  simp [Position.distance_to]

theorem Position.ext' {p q : Position} (hx : p.x = q.x) (hy : p.y = q.y) : p = q := by
  cases p; cases q; simp_all

theorem distance_to_eq_zero_iff {p q : Position} : p.distance_to q = 0 ↔ p = q := by
  constructor
  · intro h
    have hsum : (p.x - q.x) ^ 2 + (p.y - q.y) ^ 2 = 0 := by
      have := Real.sqrt_eq_zero (by positivity) |>.mp h
      exact this
    have hx : (p.x - q.x) ^ 2 = 0 := by nlinarith [sq_nonneg (p.x - q.x), sq_nonneg (p.y - q.y)]
    have hy : (p.y - q.y) ^ 2 = 0 := by nlinarith [sq_nonneg (p.x - q.x), sq_nonneg (p.y - q.y)]
    exact Position.ext' (by nlinarith [sq_nonneg (p.x - q.x)]) (by nlinarith [sq_nonneg (p.y - q.y)])
  · rintro rfl; exact distance_to_self p

/-- Moving `m` units from `p` along the unit vector toward `t` (with
`d = distance p t`, `0 < d`, `0 ≤ m ≤ d`) leaves distance `d - m` to `t`. -/
theorem distance_after_move (p t : Position) (m : ℝ)
    (hd : 0 < p.distance_to t) (hmd : m ≤ p.distance_to t) :
    (Position.mk (p.x + (t.x - p.x) / p.distance_to t * m)
                 (p.y + (t.y - p.y) / p.distance_to t * m)).distance_to t
      = p.distance_to t - m := by
  set d := p.distance_to t with hdd
  have hdne : d ≠ 0 := ne_of_gt hd
  have hx : p.x + (t.x - p.x) / d * m - t.x = (p.x - t.x) * (1 - m / d) := by
    field_simp
    ring
  have hy : p.y + (t.y - p.y) / d * m - t.y = (p.y - t.y) * (1 - m / d) := by
    field_simp
    ring
  have hc : 0 ≤ 1 - m / d := by
    have : m / d ≤ 1 := (div_le_one hd).mpr hmd
    linarith
  unfold Position.distance_to
  rw [hx, hy]
  calc Real.sqrt (((p.x - t.x) * (1 - m / d)) ^ 2 + ((p.y - t.y) * (1 - m / d)) ^ 2)
      = Real.sqrt (((p.x - t.x) ^ 2 + (p.y - t.y) ^ 2) * (1 - m / d) ^ 2) := by
        congr 1
        ring
    _ = Real.sqrt ((p.x - t.x) ^ 2 + (p.y - t.y) ^ 2) * Real.sqrt ((1 - m / d) ^ 2) := by
        rw [Real.sqrt_mul (by positivity)]
    _ = d * (1 - m / d) := by
        rw [Real.sqrt_sq hc]
        congr 1
    _ = d - m := by field_simp

/-! ### Branch lemmas for `move_towards_target` -/

theorem move_lowBattery {r : Robot} (t : Position) (dt : ℝ) (h : r.battery_level ≤ 5) :
    move_towards_target r t dt = ({ r with status := .charging }, false) := by
  simp [move_towards_target, h]

theorem move_snap {r : Robot} {t : Position} (dt : ℝ) (h : ¬ r.battery_level ≤ 5)
    (hd : r.position.distance_to t < 0.5) :
    move_towards_target r t dt = ({ r with position := t }, true) := by
  have : (⟨t.x, t.y⟩ : Position) = t := rfl
  simp [move_towards_target, h, hd, this]

theorem move_far {r : Robot} {t : Position} (dt : ℝ) (h : ¬ r.battery_level ≤ 5)
    (hd : ¬ r.position.distance_to t < 0.5) :
    move_towards_target r t dt =
      ({ r with
          position := ⟨r.position.x + (t.x - r.position.x) / r.position.distance_to t
                          * min (r.speed * dt) (r.position.distance_to t),
                       r.position.y + (t.y - r.position.y) / r.position.distance_to t
                          * min (r.speed * dt) (r.position.distance_to t)⟩,
          total_distance_traveled := r.total_distance_traveled
                          + min (r.speed * dt) (r.position.distance_to t),
          battery_level := max 0 (r.battery_level
                          - min (r.speed * dt) (r.position.distance_to t) * 0.1) },
        false) := by
  simp only [move_towards_target, if_neg h, if_neg hd]

/-- Fields never touched by `move_towards_target`. -/
theorem move_untouched (r : Robot) (t : Position) (dt : ℝ) :
    (move_towards_target r t dt).1.id = r.id ∧
    (move_towards_target r t dt).1.max_battery = r.max_battery ∧
    (move_towards_target r t dt).1.speed = r.speed ∧
    (move_towards_target r t dt).1.current_task = r.current_task ∧
    (move_towards_target r t dt).1.tasks_completed = r.tasks_completed ∧
    (move_towards_target r t dt).1.target_position = r.target_position := by
  by_cases h : r.battery_level ≤ 5
  · rw [move_lowBattery t dt h]
    exact ⟨rfl, rfl, rfl, rfl, rfl, rfl⟩
  · by_cases hd : r.position.distance_to t < 0.5
    · rw [move_snap dt h hd]
      exact ⟨rfl, rfl, rfl, rfl, rfl, rfl⟩
    · rw [move_far dt h hd]
      exact ⟨rfl, rfl, rfl, rfl, rfl, rfl⟩

/-- The status after a move step: `charging` on the low-battery abort,
unchanged otherwise. -/
theorem move_status (r : Robot) (t : Position) (dt : ℝ) :
    (move_towards_target r t dt).1.status
      = if r.battery_level ≤ 5 then .charging else r.status := by
  by_cases h : r.battery_level ≤ 5
  · rw [move_lowBattery t dt h, if_pos h]
  · rw [if_neg h]
    by_cases hd : r.position.distance_to t < 0.5
    · rw [move_snap dt h hd]
    · rw [move_far dt h hd]

end AMR

namespace AMR

/-- Distance to the target after one move step with enough battery. -/
theorem move_dist_step {r : Robot} (t : Position) (dt : ℝ)
    (hb : ¬ r.battery_level ≤ 5) :
    (move_towards_target r t dt).1.position.distance_to t
      = if r.position.distance_to t < 0.5 then 0
        else r.position.distance_to t - min (r.speed * dt) (r.position.distance_to t) := by
  by_cases hd : r.position.distance_to t < 0.5
  · rw [move_snap dt hb hd, if_pos hd]
    exact distance_to_self t
  · rw [move_far dt hb hd, if_neg hd]
    have hdpos : 0 < r.position.distance_to t := by
      have := distance_to_nonneg r.position t
      push_neg at hd
      linarith
    exact distance_after_move r.position t _ hdpos (min_le_right _ _)

/-- Battery after one move step with enough battery: it drops by at most
`speed * dt * 0.1`. -/
theorem move_battery_lower (r : Robot) (t : Position) (dt : ℝ) (hsd : 0 ≤ r.speed * dt) :
    r.battery_level - r.speed * dt * 0.1 ≤ (move_towards_target r t dt).1.battery_level := by
  by_cases h : r.battery_level ≤ 5
  · rw [move_lowBattery t dt h]
    dsimp
    nlinarith
  · by_cases hd : r.position.distance_to t < 0.5
    · rw [move_snap dt h hd]
      dsimp
      nlinarith
    · rw [move_far dt h hd]
      dsimp
      have h1 : min (r.speed * dt) (r.position.distance_to t) ≤ r.speed * dt :=
        min_le_left _ _
      have h2 : r.battery_level - min (r.speed * dt) (r.position.distance_to t) * 0.1
          ≤ max 0 (r.battery_level - min (r.speed * dt) (r.position.distance_to t) * 0.1) :=
        le_max_right _ _
      nlinarith

/-- The battery never increases during a move step. -/
theorem move_battery_le (r : Robot) (t : Position) (dt : ℝ) (hsd : 0 ≤ r.speed * dt)
    (hb : 0 ≤ r.battery_level) :
    (move_towards_target r t dt).1.battery_level ≤ r.battery_level := by
  by_cases h : r.battery_level ≤ 5
  · rw [move_lowBattery t dt h]
  · by_cases hd : r.position.distance_to t < 0.5
    · rw [move_snap dt h hd]
    · rw [move_far dt h hd]
      dsimp
      have hm : 0 ≤ min (r.speed * dt) (r.position.distance_to t) :=
        le_min hsd (distance_to_nonneg _ _)
      have : r.battery_level - min (r.speed * dt) (r.position.distance_to t) * 0.1
          ≤ r.battery_level := by nlinarith
      exact max_le hb this

/-- The battery stays nonnegative during a move step. -/
theorem move_battery_nonneg (r : Robot) (t : Position) (dt : ℝ) (hb : 0 ≤ r.battery_level) :
    0 ≤ (move_towards_target r t dt).1.battery_level := by
  by_cases h : r.battery_level ≤ 5
  · rw [move_lowBattery t dt h]; exact hb
  · by_cases hd : r.position.distance_to t < 0.5
    · rw [move_snap dt h hd]; exact hb
    · rw [move_far dt h hd]
      exact le_max_left _ _

/-! ### `updateAt` -/

theorem updateAt_length (l : List Robot) (i : ℕ) (f : Robot → Robot) :
    (updateAt l i f).length = l.length := by
  induction l generalizing i with
  | nil => rfl
  | cons r rs ih =>
      cases i with
      | zero => rfl
      | succ j => simpa [updateAt] using ih j

theorem mem_updateAt {l : List Robot} {i : ℕ} {f : Robot → Robot} {a : Robot}
    (h : a ∈ updateAt l i f) : (∃ b ∈ l, a = f b) ∨ a ∈ l := by
  induction l generalizing i with
  | nil => simp [updateAt] at h
  | cons r rs ih =>
      cases i with
      | zero =>
          rcases List.mem_cons.mp h with h | h
          · exact Or.inl ⟨r, by simp, h⟩
          · exact Or.inr (List.mem_cons_of_mem _ h)
      | succ j =>
          rcases List.mem_cons.mp h with h | h
          · exact Or.inr (h ▸ List.mem_cons_self _ _)
          · rcases ih h with ⟨b, hb, rfl⟩ | h
            · exact Or.inl ⟨b, List.mem_cons_of_mem _ hb, rfl⟩
            · exact Or.inr (List.mem_cons_of_mem _ h)

theorem updateAt_get?_self {l : List Robot} {i : ℕ} {r : Robot} (f : Robot → Robot)
    (h : l.get? i = some r) : (updateAt l i f).get? i = some (f r) := by
  induction l generalizing i with
  | nil => simp at h
  | cons x xs ih =>
      cases i with
      | zero => simp_all [updateAt]
      | succ j => simpa [updateAt] using ih (by simpa using h)

theorem updateAt_get?_other {l : List Robot} {i : ℕ} (f : Robot → Robot) (j : ℕ)
    (h : j ≠ i) : (updateAt l i f).get? j = l.get? j := by
  induction l generalizing i j with
  | nil => rfl
  | cons x xs ih =>
      cases i with
      | zero =>
          cases j with
          | zero => exact absurd rfl h
          | succ k => simp [updateAt]
      | succ i' =>
          cases j with
          | zero => simp [updateAt]
          | succ k => simpa [updateAt] using ih _ (fun hk => h (by simp [hk]))

/-! ### `removeTask` -/

theorem removeTask_of_mem {t : Task} : ∀ {l : List Task}, t ∈ l →
    ∃ l1 l2, l = l1 ++ t :: l2 ∧ removeTask l t = l1 ++ l2 ∧ t ∉ l1 := by
  intro l hl
  induction l with
  | nil => simp at hl
  | cons a as ih =>
      by_cases ha : a = t
      · subst ha
        exact ⟨[], as, rfl, by simp [removeTask], by simp⟩
      · have hmem : t ∈ as := by
          rcases List.mem_cons.mp hl with h | h
          · exact absurd h.symm ha
          · exact h
        rcases ih hmem with ⟨l1, l2, hdec, hrem, hnot⟩
        refine ⟨a :: l1, l2, by simp [hdec], ?_, ?_⟩
        · simp [removeTask, ha, hrem]
        · intro hmem'
          rcases List.mem_cons.mp hmem' with h | h
          · exact ha h.symm
          · exact hnot h

/-! ### `availIdx` -/

theorem availIdx_mem {robots : List Robot} : ∀ {k : ℕ} {i : ℕ} {r : Robot},
    (i, r) ∈ availIdx k robots → ∃ j, i = k + j ∧ robots.get? j = some r ∧ eligible r := by
  induction robots with
  | nil => intro k i r h; simp [availIdx] at h
  | cons x xs ih =>
      intro k i r h
      by_cases he : eligible x
      · rw [availIdx, if_pos he] at h
        rcases List.mem_cons.mp h with h | h
        · injection h with h1 h2
          subst h1
          subst h2
          exact ⟨0, by omega, rfl, he⟩
        · rcases ih h with ⟨j, hj, hg, hel⟩
          exact ⟨j + 1, by omega, by simpa using hg, hel⟩
      · rw [availIdx, if_neg he] at h
        rcases ih h with ⟨j, hj, hg, hel⟩
        exact ⟨j + 1, by omega, by simpa using hg, hel⟩

theorem availIdx_nil_iff (robots : List Robot) : ∀ k,
    availIdx k robots = [] ↔ ∀ r ∈ robots, ¬ eligible r := by
  induction robots with
  | nil => intro k; simp [availIdx]
  | cons x xs ih =>
      intro k
      by_cases he : eligible x
      · rw [availIdx, if_pos he]
        simp only [List.forall_mem_cons]
        constructor
        · intro h
          exact absurd h (List.cons_ne_nil _ _)
        · intro h
          exact absurd he h.1
      · rw [availIdx, if_neg he]
        rw [ih (k + 1)]
        constructor
        · intro h r hr
          rcases List.mem_cons.mp hr with rfl | hr
          · exact he
          · exact h r hr
        · intro h r hr
          exact h r (List.mem_cons_of_mem _ hr)

theorem availIdx_of_eligible {robots : List Robot} : ∀ {j : ℕ} {r : Robot} (k : ℕ),
    robots.get? j = some r → eligible r → (k + j, r) ∈ availIdx k robots := by
  induction robots with
  | nil => intro j r k h _; simp at h
  | cons x xs ih =>
      intro j r k h hel
      cases j with
      | zero =>
          simp only [List.get?] at h
          injection h with h
          subst h
          rw [availIdx, if_pos hel]
          simp
      | succ j' =>
          have hmem := ih (k + 1) (by simpa using h) hel
          have hre : k + 1 + j' = k + (j' + 1) := by omega
          by_cases he : eligible x
          · rw [availIdx, if_pos he]
            exact List.mem_cons_of_mem _ (hre ▸ hmem)
          · rw [availIdx, if_neg he]
            exact hre ▸ hmem

end AMR

namespace AMR

/-! ### The best-candidate fold of `assign_optimal_robot` -/

theorem foldl_bestStep_ne_none : ∀ (l : List Cand) (p : Cand × ℝ),
    l.foldl bestStep (some p) ≠ none := by
  intro l
  induction l with
  | nil => intro p h; exact Option.noConfusion h
  | cons c l ih =>
      intro p
      rw [List.foldl_cons]
      show l.foldl bestStep (bestStep (some p) c) ≠ none
      rw [bestStep]
      split
      · exact ih _
      · exact ih _

theorem foldl_bestStep_aux : ∀ (l : List Cand) (p : Cand × ℝ) (b : Cand) (s : ℝ),
    p.2 = candScore p.1 → l.foldl bestStep (some p) = some (b, s) →
    s = candScore b ∧ (b = p.1 ∨ b ∈ l) ∧ s ≤ p.2 ∧ ∀ c ∈ l, s ≤ candScore c := by
  intro l
  induction l with
  | nil =>
      intro p b s hp h
      simp only [List.foldl_nil] at h
      injection h with h
      obtain ⟨rfl, rfl⟩ : b = p.1 ∧ s = p.2 := by
        constructor
        · exact congrArg Prod.fst h.symm
        · exact congrArg Prod.snd h.symm
      exact ⟨hp, Or.inl rfl, le_refl _, by intro c hc; simp at hc⟩
  | cons c l ih =>
      intro p b s hp h
      rw [List.foldl_cons] at h
      have hb : bestStep (some p) c
          = if candScore c < p.2 then (c, candScore c) else p := by
        rw [bestStep]
        split <;> rfl
      by_cases hlt : candScore c < p.2
      · rw [hb, if_pos hlt] at h
        rcases ih (c, candScore c) b s rfl h with ⟨h1, h2, h3, h4⟩
        refine ⟨h1, ?_, ?_, ?_⟩
        · rcases h2 with rfl | h2
          · exact Or.inr (List.mem_cons_self _ _)
          · exact Or.inr (List.mem_cons_of_mem _ h2)
        · exact le_trans h3 (le_of_lt hlt)
        · intro c' hc'
          rcases List.mem_cons.mp hc' with rfl | hc'
          · exact h3
          · exact h4 c' hc'
      · rw [hb, if_neg hlt] at h
        rcases ih p b s hp h with ⟨h1, h2, h3, h4⟩
        push_neg at hlt
        refine ⟨h1, ?_, h3, ?_⟩
        · rcases h2 with rfl | h2
          · exact Or.inl rfl
          · exact Or.inr (List.mem_cons_of_mem _ h2)
        · intro c' hc'
          rcases List.mem_cons.mp hc' with rfl | hc'
          · exact le_trans h3 hlt
          · exact h4 c' hc'

theorem foldl_bestStep_spec {l : List Cand} {b : Cand} {s : ℝ}
    (h : l.foldl bestStep none = some (b, s)) :
    s = candScore b ∧ b ∈ l ∧ ∀ c ∈ l, s ≤ candScore c := by
  cases l with
  | nil => simp at h
  | cons c l =>
      rw [List.foldl_cons] at h
      have hb : bestStep none c = some (c, candScore c) := rfl
      rw [hb] at h
      rcases foldl_bestStep_aux l (c, candScore c) b s rfl h with ⟨h1, h2, h3, h4⟩
      refine ⟨h1, ?_, ?_⟩
      · rcases h2 with rfl | h2
        · exact List.mem_cons_self _ _
        · exact List.mem_cons_of_mem _ h2
      · intro c' hc'
        rcases List.mem_cons.mp hc' with rfl | hc'
        · exact h3
        · exact h4 c' hc'

theorem mem_candidates {pending : List Task} {robots : List Robot} {c : Cand} :
    c ∈ candidates pending robots
      ↔ c.2.2 ∈ pending ∧ (c.1, c.2.1) ∈ availIdx 0 robots := by
  constructor
  · intro h
    rcases List.mem_flatMap.mp h with ⟨t, ht, hmap⟩
    rcases List.mem_map.mp hmap with ⟨p, hp, rfl⟩
    exact ⟨ht, hp⟩
  · rintro ⟨ht, hp⟩
    refine List.mem_flatMap.mpr ⟨c.2.2, ht, ?_⟩
    refine List.mem_map.mpr ⟨(c.1, c.2.1), hp, rfl⟩

theorem candidates_ne_nil {pending : List Task} {robots : List Robot}
    (hp : pending ≠ []) (ha : availIdx 0 robots ≠ []) :
    candidates pending robots ≠ [] := by
  cases pending with
  | nil => exact absurd rfl hp
  | cons t rest =>
      cases h : availIdx 0 robots with
      | nil => exact absurd h ha
      | cons p ps =>
          intro hc
          have : ((t.priority, 0) : ℤ × ℕ) = (t.priority, 0) := rfl
          have hmem : (p.1, p.2, t) ∈ candidates (t :: rest) robots := by
            refine mem_candidates.mpr ⟨List.mem_cons_self _ _, ?_⟩
            rw [h]
            exact List.mem_cons_self _ _
          rw [hc] at hmem
          simp at hmem


/-! ### Specification of `assign_optimal_robot` -/

theorem assign_eq_of_nil (robots : List Robot) :
    assign_optimal_robot [] robots = (none, []) := rfl

theorem assign_eq_of_noavail (pending : List Task) (robots : List Robot)
    (hp : pending ≠ []) (hav : availIdx 0 robots = []) :
    assign_optimal_robot pending robots = (none, pending) := by
  cases pending with
  | nil => exact absurd rfl hp
  | cons t rest => simp [assign_optimal_robot, hav]

theorem assign_eq_of_fold (pending : List Task) (robots : List Robot) (b : Cand) (s : ℝ)
    (hp : pending ≠ []) (hav : availIdx 0 robots ≠ [])
    (hfold : (candidates pending robots).foldl bestStep none = some (b, s)) :
    assign_optimal_robot pending robots = (some b, removeTask pending b.2.2) := by
  cases pending with
  | nil => exact absurd rfl hp
  | cons t rest =>
      cases h : availIdx 0 robots with
      | nil => exact absurd h hav
      | cons p ps => simp [assign_optimal_robot, h, hfold]

theorem fold_candidates_exists (pending : List Task) (robots : List Robot)
    (hp : pending ≠ []) (hav : availIdx 0 robots ≠ []) :
    ∃ b s, (candidates pending robots).foldl bestStep none = some (b, s) := by
  cases hc : candidates pending robots with
  | nil => exact absurd hc (candidates_ne_nil hp hav)
  | cons c cs =>
      cases hfold : (c :: cs).foldl bestStep none with
      | none =>
          exfalso
          rw [List.foldl_cons] at hfold
          exact foldl_bestStep_ne_none cs _ hfold
      | some bs => exact ⟨bs.1, bs.2, by rw [← hfold]⟩

/-- On a match, the matched robot is an eligible robot of the fleet list (at
its index), the matched task is pending, the returned pending list has exactly
that task removed, and the pair minimises the score over all eligible robots
and pending tasks. -/
theorem assign_some_spec {pending : List Task} {robots : List Robot}
    {i : ℕ} {r : Robot} {t : Task}
    (h : (assign_optimal_robot pending robots).1 = some (i, r, t)) :
    robots.get? i = some r ∧ eligible r ∧ t ∈ pending ∧
    (assign_optimal_robot pending robots).2 = removeTask pending t ∧
    (∀ (r' : Robot) (t' : Task), (∃ j, robots.get? j = some r') → eligible r' →
        t' ∈ pending → score r t ≤ score r' t') := by
  have hp : pending ≠ [] := by
    intro hnil
    subst hnil
    rw [assign_eq_of_nil] at h
    exact Option.noConfusion h
  have hav : availIdx 0 robots ≠ [] := by
    intro hnil
    rw [assign_eq_of_noavail pending robots hp hnil] at h
    exact Option.noConfusion h
  rcases fold_candidates_exists pending robots hp hav with ⟨b, s, hfold⟩
  have hres := assign_eq_of_fold pending robots b s hp hav hfold
  have hb : b = (i, r, t) := by
    rw [hres] at h
    simpa using h
  subst hb
  rcases foldl_bestStep_spec hfold with ⟨hs, hmem, hmin⟩
  rcases mem_candidates.mp hmem with ⟨ht, hpair⟩
  rcases availIdx_mem hpair with ⟨j, hj, hget, hel⟩
  have hij : i = j := by omega
  subst hij
  refine ⟨hget, hel, ht, by rw [hres], ?_⟩
  intro r' t' hj' hel' ht'
  rcases hj' with ⟨j', hj'⟩
  have hpair' : (j', r') ∈ availIdx 0 robots := by
    have := availIdx_of_eligible 0 hj' hel'
    simpa using this
  have hc' : ((j', r', t') : Cand) ∈ candidates pending robots :=
    mem_candidates.mpr ⟨ht', hpair'⟩
  have := hmin _ hc'
  rw [hs] at this
  exact this

/-- The scheduler returns no match exactly when the pending list is empty or
no robot is eligible. -/
theorem assign_none_iff (pending : List Task) (robots : List Robot) :
    (assign_optimal_robot pending robots).1 = none
      ↔ pending = [] ∨ ∀ r ∈ robots, ¬ eligible r := by
  by_cases hp : pending = []
  · subst hp
    simp [assign_eq_of_nil]
  · by_cases hav : availIdx 0 robots = []
    · rw [assign_eq_of_noavail pending robots hp hav]
      simp only [iff_true_intro rfl, true_iff]
      exact Or.inr ((availIdx_nil_iff robots 0).mp hav)
    · rcases fold_candidates_exists pending robots hp hav with ⟨b, s, hfold⟩
      rw [assign_eq_of_fold pending robots b s hp hav hfold]
      constructor
      · intro habs
        exact Option.noConfusion habs
      · intro habs
        rcases habs with habs | habs
        · exact absurd habs hp
        · cases hcav : availIdx 0 robots with
          | nil => exact absurd hcav hav
          | cons p ps =>
              exfalso
              rcases availIdx_mem (hcav ▸ List.mem_cons_self p ps) with ⟨j, _, hget, hel⟩
              exact habs p.2 (List.get?_mem hget) hel

/-- With no match the pending list is returned unchanged. -/
theorem assign_none_pending {pending : List Task} {robots : List Robot}
    (h : (assign_optimal_robot pending robots).1 = none) :
    (assign_optimal_robot pending robots).2 = pending := by
  by_cases hp : pending = []
  · subst hp
    rw [assign_eq_of_nil]
  · by_cases hav : availIdx 0 robots = []
    · rw [assign_eq_of_noavail pending robots hp hav]
    · rcases fold_candidates_exists pending robots hp hav with ⟨b, s, hfold⟩
      rw [assign_eq_of_fold pending robots b s hp hav hfold] at h
      exact Option.noConfusion h

end AMR

namespace AMR

/-! ### Stability and sortedness of the pending queue -/

/-- The pending list after a sequence of `add_task` calls on an initially
empty scheduler. -/
def pendingAfter (ts : List Task) : List Task := ts.foldl add_task []

theorem add_task_sorted (pending : List Task) (t : Task) :
    List.Sorted prioGE (add_task pending t) :=
  List.sorted_insertionSort prioGE _

theorem filter_orderedInsert (p : ℤ) (x : Task) : ∀ s : List Task,
    (List.orderedInsert prioGE x s).filter (fun a => decide (a.priority = p))
      = if x.priority = p
        then x :: s.filter (fun a => decide (a.priority = p))
        else s.filter (fun a => decide (a.priority = p)) := by
  intro s
  induction s with
  | nil =>
      by_cases hx : x.priority = p
      · simp [List.orderedInsert, hx]
      · simp [List.orderedInsert, hx]
  | cons b s ih =>
      by_cases hxb : prioGE x b
      · rw [List.orderedInsert, if_pos hxb]
        by_cases hx : x.priority = p
        · simp [List.filter_cons, hx]
        · simp [List.filter_cons, hx]
      · rw [List.orderedInsert, if_neg hxb]
        have hlt : x.priority < b.priority := lt_of_not_le hxb
        by_cases hx : x.priority = p
        · have hb : ¬ b.priority = p := by
            intro hbp
            rw [hx] at hlt
            rw [hbp] at hlt
            exact lt_irrefl _ hlt
          rw [List.filter_cons, List.filter_cons, ih, if_pos hx]
          simp [hb, hx]
        · rw [List.filter_cons, List.filter_cons, ih, if_neg hx, if_neg hx]

theorem filter_insertionSort (p : ℤ) : ∀ l : List Task,
    (List.insertionSort prioGE l).filter (fun a => decide (a.priority = p))
      = l.filter (fun a => decide (a.priority = p)) := by
  intro l
  induction l with
  | nil => rfl
  | cons t l ih =>
      rw [List.insertionSort, filter_orderedInsert, List.filter_cons]
      by_cases hx : t.priority = p
      · rw [if_pos hx, ih]
        simp [hx]
      · rw [if_neg hx, ih]
        simp [hx]

theorem filter_add_task (p : ℤ) (pending : List Task) (t : Task) :
    (add_task pending t).filter (fun a => decide (a.priority = p))
      = pending.filter (fun a => decide (a.priority = p))
        ++ [t].filter (fun a => decide (a.priority = p)) := by
  rw [add_task, filter_insertionSort, List.filter_append]

theorem foldl_add_task_spec : ∀ (ts : List Task) (acc : List Task),
    List.Sorted prioGE acc →
    List.Sorted prioGE (ts.foldl add_task acc) ∧
    ∀ p : ℤ, (ts.foldl add_task acc).filter (fun a => decide (a.priority = p))
      = acc.filter (fun a => decide (a.priority = p))
        ++ ts.filter (fun a => decide (a.priority = p)) := by
  intro ts
  induction ts with
  | nil =>
      intro acc hacc
      exact ⟨hacc, fun p => by simp⟩
  | cons t ts ih =>
      intro acc _
      rw [List.foldl_cons]
      rcases ih (add_task acc t) (add_task_sorted acc t) with ⟨h1, h2⟩
      refine ⟨h1, fun p => ?_⟩
      rw [h2 p, filter_add_task, List.filter_cons, List.append_assoc]
      by_cases hx : t.priority = p
      · simp [hx]
      · simp [hx]

end AMR

namespace AMR

/-! ### Record eta helpers -/

theorem robot_eta_target {r : Robot} {tp : Position} (h : r.target_position = some tp) :
    ({ r with target_position := some tp } : Robot) = r := by
  cases r
  simp only at h
  simp [h]

theorem robot_eta_status {r : Robot} (h : r.status = RobotStatus.charging) :
    ({ r with status := RobotStatus.charging } : Robot) = r := by
  cases r
  simp only at h
  simp [h]

/-! ### `updateRobot` on a charging robot with a drained battery -/

/-- A charging robot with battery at most 5: the tick body only (possibly)
sets its target; position, battery, status, task are untouched, because
`move_towards_target` aborts before reaching the charging code. -/
theorem updateRobot_charging_stuck (dt : ℝ) (r : Robot)
    (hs : r.status = RobotStatus.charging) (hb : r.battery_level ≤ 5) :
    updateRobot dt r
      = { r with target_position :=
            (some (r.target_position.getD (nearestStation r.position))) } := by
  obtain ⟨rid, pos, st, bat, maxb, spd, task, dist, comp, tgt⟩ := r
  simp only at hs hb
  subst hs
  simp only [updateRobot]
  rw [move_lowBattery _ dt (by simpa using hb)]
  simp

/-- A charging robot with a target already set and a drained battery: the tick
body leaves the robot entirely unchanged. -/
theorem updateRobot_charging_stuck_of_target {dt : ℝ} {r : Robot} {tp : Position}
    (hs : r.status = RobotStatus.charging) (hb : r.battery_level ≤ 5)
    (ht : r.target_position = some tp) :
    updateRobot dt r = r := by
  rw [updateRobot_charging_stuck dt r hs hb, ht]
  exact robot_eta_target ht

/-- A moving or working robot with a drained battery: the tick body only flips
the status to `charging`. -/
theorem updateRobot_lowbat_moving {dt : ℝ} {r : Robot} {tp : Position}
    (hs : r.status = RobotStatus.moving) (hb : r.battery_level ≤ 5)
    (ht : r.target_position = some tp) :
    updateRobot dt r = { r with status := RobotStatus.charging } := by
  obtain ⟨rid, pos, st, bat, maxb, spd, task, dist, comp, tgt⟩ := r
  simp only at hs hb ht
  subst hs
  subst ht
  simp only [updateRobot]
  rw [move_lowBattery _ dt (by simpa using hb)]
  simp

theorem updateRobot_lowbat_working {dt : ℝ} {r : Robot} {tp : Position}
    (hs : r.status = RobotStatus.working) (hb : r.battery_level ≤ 5)
    (ht : r.target_position = some tp) :
    updateRobot dt r = { r with status := RobotStatus.charging } := by
  obtain ⟨rid, pos, st, bat, maxb, spd, task, dist, comp, tgt⟩ := r
  simp only at hs hb ht
  subst hs
  subst ht
  simp only [updateRobot]
  rw [move_lowBattery _ dt (by simpa using hb)]
  simp

/-! ### Index-stability of the tick for non-idle robots -/

theorem assignPhase_get?_of_not_idle {S : FleetState} {i : ℕ} {r : Robot}
    (h : S.robots.get? i = some r) (hne : r.status ≠ RobotStatus.idle) :
    (assignPhase S).robots.get? i = some r := by
  cases hres : assign_optimal_robot S.pending S.robots with
  | mk res pending' =>
      cases res with
      | none =>
          have : assignPhase S = S := by
            rw [assignPhase, hres]
          rw [this, h]
      | some c =>
          obtain ⟨j, rr, t⟩ := c
          have h1 : (assign_optimal_robot S.pending S.robots).1 = some (j, rr, t) := by
            rw [hres]
          rcases assign_some_spec h1 with ⟨hget, hel, _, _, _⟩
          have hji : j ≠ i := by
            intro hj
            subst hj
            rw [h] at hget
            injection hget with hget
            subst hget
            exact hne hel.1
          have : assignPhase S
              = ⟨updateAt S.robots j (fun r0 => assign_task r0 t), pending'⟩ := by
            rw [assignPhase, hres]
          rw [this]
          show (updateAt S.robots j _).get? i = some r
          rw [updateAt_get?_other _ i (fun hk => hji hk.symm), h]

theorem updateFleet_get?_of_not_idle {S : FleetState} {i : ℕ} {r : Robot} (dt : ℝ)
    (h : S.robots.get? i = some r) (hne : r.status ≠ RobotStatus.idle) :
    (updateFleet S dt).robots.get? i = some (updateRobot dt r) := by
  have h1 := assignPhase_get?_of_not_idle h hne
  show ((assignPhase S).robots.map (updateRobot dt)).get? i = some (updateRobot dt r)
  rw [List.get?_map, h1]
  rfl

end AMR

namespace AMR

/-! ### Reachable states

`Reachable` closes the initial states (fleets of freshly constructed robots,
empty pending queue) under all core operations: `add_task`, a scheduler
assignment (`assignPhase`, i.e. `assign_optimal_robot` followed by
`Robot.assign_task`), a standalone `assign_task` / `move_towards_target` /
`complete_current_task` on any robot, `update_fleet` with a nonnegative `dt`
(the dashboard ticks with `dt = 0.1`), `emergency_stop` and `charge_all`. -/
inductive Reachable : FleetState → Prop where
  | init (inits : List (String × Position × ℝ)) (h : ∀ x ∈ inits, 0 ≤ x.2.2) :
      Reachable ⟨inits.map (fun x => mkRobot x.1 x.2.1 x.2.2), []⟩
  | addTask (S : FleetState) (t : Task) : Reachable S →
      Reachable ⟨S.robots, add_task S.pending t⟩
  | assignStep (S : FleetState) : Reachable S → Reachable (assignPhase S)
  | assignOp (S : FleetState) (i : ℕ) (t : Task) : Reachable S →
      Reachable ⟨updateAt S.robots i (fun r => assign_task r t), S.pending⟩
  | moveOp (S : FleetState) (i : ℕ) (tp : Position) (dt : ℝ) (hdt : 0 ≤ dt) :
      Reachable S →
      Reachable ⟨updateAt S.robots i (fun r => (move_towards_target r tp dt).1), S.pending⟩
  | completeOp (S : FleetState) (i : ℕ) : Reachable S →
      Reachable ⟨updateAt S.robots i complete_current_task, S.pending⟩
  | tick (S : FleetState) (dt : ℝ) (hdt : 0 ≤ dt) : Reachable S →
      Reachable (updateFleet S dt)
  | estop (S : FleetState) : Reachable S → Reachable (emergencyStop S)
  | chargeAllOp (S : FleetState) : Reachable S → Reachable (chargeAll S)

/-! ### The battery invariant -/

/-- Battery bounds together with the auxiliary fact that the speed is
nonnegative (true of every constructed robot and preserved by every
operation), which the bounds' preservation proof needs. -/
def BatInv (r : Robot) : Prop :=
  0 ≤ r.battery_level ∧ r.battery_level ≤ r.max_battery ∧ 0 ≤ r.speed

theorem batInv_mk (rid : String) (pos : Position) (mb : ℝ) (h : 0 ≤ mb) :
    BatInv (mkRobot rid pos mb) :=
  ⟨h, le_refl _, by norm_num [mkRobot]⟩

theorem batInv_assign {r : Robot} (t : Task) (h : BatInv r) : BatInv (assign_task r t) := h

theorem batInv_complete {r : Robot} (h : BatInv r) : BatInv (complete_current_task r) := by
  rw [complete_current_task]
  cases r.current_task with
  | none => exact h
  | some t => exact h

theorem batInv_chargeOne {r : Robot} (h : BatInv r) : BatInv (chargeOne r) := by
  rw [chargeOne]
  by_cases hc : r.battery_level < 90
  · rw [if_pos hc]; exact h
  · rw [if_neg hc]; exact h

theorem batInv_move {r : Robot} (tp : Position) (dt : ℝ) (hdt : 0 ≤ dt) (h : BatInv r) :
    BatInv (move_towards_target r tp dt).1 := by
  obtain ⟨h1, h2, h3⟩ := h
  have hsd : 0 ≤ r.speed * dt := mul_nonneg h3 hdt
  obtain ⟨_, hu2, hu3, _, _, _⟩ := move_untouched r tp dt
  refine ⟨move_battery_nonneg r tp dt h1, ?_, ?_⟩
  · rw [hu2]
    exact le_trans (move_battery_le r tp dt hsd h1) h2
  · rw [hu3]
    exact h3

theorem batInv_updateRobot (dt : ℝ) (r : Robot) (hdt : 0 ≤ dt) (h : BatInv r) :
    BatInv (updateRobot dt r) := by
  cases hst : r.status with
  | idle => simpa only [updateRobot, hst] using h
  | maintenance => simpa only [updateRobot, hst] using h
  | moving =>
      cases htg : r.target_position with
      | none => simpa only [updateRobot, hst, htg] using h
      | some tp =>
          simp only [updateRobot, hst, htg]
          have hs := batInv_move tp dt hdt h
          by_cases harr : (move_towards_target r tp dt).2 = true
          · rw [if_pos harr]
            cases hct : (move_towards_target r tp dt).1.current_task with
            | some task =>
                dsimp only
                by_cases hsp : tp = task.start_pos
                · rw [if_pos hsp]
                  exact hs
                · rw [if_neg hsp]
                  exact batInv_complete hs
            | none =>
                dsimp only
                exact hs
          · rw [if_neg harr]
            exact hs
  | working =>
      cases htg : r.target_position with
      | none => simpa only [updateRobot, hst, htg] using h
      | some tp =>
          simp only [updateRobot, hst, htg]
          have hs := batInv_move tp dt hdt h
          by_cases harr : (move_towards_target r tp dt).2 = true
          · rw [if_pos harr]
            exact batInv_complete hs
          · rw [if_neg harr]
            exact hs
  | charging =>
      obtain ⟨h1, h2, h3⟩ := h
      obtain ⟨rid, pos, st, bat, maxb, spd, task, dist, comp, tgt⟩ := r
      simp only at h1 h2 h3 hst
      subst hst
      simp only [updateRobot]
      set tp := Option.getD tgt (nearestStation pos) with htp
      set r0 : Robot :=
        ⟨rid, pos, RobotStatus.charging, bat, maxb, spd, task, dist, comp, some tp⟩ with hr0
      have h0 : BatInv r0 := ⟨h1, h2, h3⟩
      have hs := batInv_move tp dt hdt h0
      obtain ⟨hs1, hs2, hs3⟩ := hs
      by_cases harr : (move_towards_target r0 tp dt).2 = true
      · rw [if_pos harr]
        set step := (move_towards_target r0 tp dt).1 with hstep
        have hmax : 0 ≤ step.max_battery := le_trans hs1 hs2
        have hbat : BatInv ({ step with
            battery_level := min step.max_battery (step.battery_level + 20 * dt) } : Robot) := by
          refine ⟨le_min hmax ?_, min_le_left _ _, hs3⟩
          have : 0 ≤ 20 * dt := by linarith
          linarith
        by_cases hfull : ({ step with
              battery_level := min step.max_battery (step.battery_level + 20 * dt) }
                : Robot).max_battery * 0.9
            ≤ ({ step with
              battery_level := min step.max_battery (step.battery_level + 20 * dt) }
                : Robot).battery_level
        · rw [if_pos hfull]
          exact hbat
        · rw [if_neg hfull]
          exact hbat
      · rw [if_neg harr]
        exact ⟨hs1, hs2, hs3⟩

theorem batInv_updateAt {l : List Robot} {i : ℕ} {f : Robot → Robot}
    (hl : ∀ r ∈ l, BatInv r) (hf : ∀ r, BatInv r → BatInv (f r)) :
    ∀ r ∈ updateAt l i f, BatInv r := by
  intro r hr
  rcases mem_updateAt hr with ⟨b, hb, rfl⟩ | hr
  · exact hf b (hl b hb)
  · exact hl r hr

theorem batInv_assignPhase {S : FleetState} (h : ∀ r ∈ S.robots, BatInv r) :
    ∀ r ∈ (assignPhase S).robots, BatInv r := by
  cases hres : assign_optimal_robot S.pending S.robots with
  | mk res pending' =>
      cases res with
      | none =>
          have : assignPhase S = S := by rw [assignPhase, hres]
          rw [this]
          exact h
      | some c =>
          obtain ⟨j, rr, t⟩ := c
          have : assignPhase S
              = ⟨updateAt S.robots j (fun r0 => assign_task r0 t), pending'⟩ := by
            rw [assignPhase, hres]
          rw [this]
          exact batInv_updateAt h (fun r0 h0 => batInv_assign t h0)

/-- Every reachable state satisfies the battery invariant on every robot. -/
theorem batInv_reachable {S : FleetState} (h : Reachable S) :
    ∀ r ∈ S.robots, BatInv r := by
  induction h with
  | init inits h0 =>
      intro r hr
      rcases List.mem_map.mp hr with ⟨x, hx, rfl⟩
      exact batInv_mk _ _ _ (h0 x hx)
  | addTask S t _ ih => exact ih
  | assignStep S _ ih => exact batInv_assignPhase ih
  | assignOp S i t _ ih => exact batInv_updateAt ih (fun r0 h0 => batInv_assign t h0)
  | moveOp S i tp dt hdt _ ih =>
      exact batInv_updateAt ih (fun r0 h0 => batInv_move tp dt hdt h0)
  | completeOp S i _ ih => exact batInv_updateAt ih (fun r0 h0 => batInv_complete h0)
  | tick S dt hdt _ ih =>
      intro r hr
      rcases List.mem_map.mp hr with ⟨r0, hr0, rfl⟩
      exact batInv_updateRobot dt r0 hdt (batInv_assignPhase ih r0 hr0)
  | estop S _ ih =>
      intro r hr
      rcases List.mem_map.mp hr with ⟨r0, hr0, rfl⟩
      exact ih r0 hr0
  | chargeAllOp S _ ih =>
      intro r hr
      rcases List.mem_map.mp hr with ⟨r0, hr0, rfl⟩
      exact batInv_chargeOne (ih r0 hr0)

end AMR

namespace AMR

/-! ### Generic preservation helpers -/

theorem pred_updateAt {P : Robot → Prop} {l : List Robot} {i : ℕ} {f : Robot → Robot}
    (hl : ∀ r ∈ l, P r) (hf : ∀ r, P r → P (f r)) :
    ∀ r ∈ updateAt l i f, P r := by
  intro r hr
  rcases mem_updateAt hr with ⟨b, hb, rfl⟩ | hr
  · exact hf b (hl b hb)
  · exact hl r hr

theorem pred_assignPhase {P : Robot → Prop} {S : FleetState}
    (h : ∀ r ∈ S.robots, P r) (hf : ∀ r t, P r → P (assign_task r t)) :
    ∀ r ∈ (assignPhase S).robots, P r := by
  cases hres : assign_optimal_robot S.pending S.robots with
  | mk res pending' =>
      cases res with
      | none =>
          have heq : assignPhase S = S := by rw [assignPhase, hres]
          rw [heq]
          exact h
      | some c =>
          obtain ⟨j, rr, t⟩ := c
          have heq : assignPhase S
              = ⟨updateAt S.robots j (fun r0 => assign_task r0 t), pending'⟩ := by
            rw [assignPhase, hres]
          rw [heq]
          exact pred_updateAt h (fun r0 h0 => hf r0 t h0)

/-! ### Reduction lemmas for `complete_current_task` -/

theorem complete_of_some {r : Robot} {t : Task} (h : r.current_task = some t) :
    complete_current_task r
      = { r with
            tasks_completed := r.tasks_completed + 1,
            current_task := none,
            status := RobotStatus.idle,
            target_position := none } := by
  rw [complete_current_task, h]

theorem complete_of_none {r : Robot} (h : r.current_task = none) :
    complete_current_task r = r := by
  rw [complete_current_task, h]

/-! ### The status/task/target invariant (claim C4's amended form) -/

/-- The provable part of the spec's `current_task`/`status` coupling: moving
and working robots always carry a task, and idle robots never carry a target.
(The converse — a task only when moving or working — fails: see the C4
counterexample.) -/
def StatusInv (r : Robot) : Prop :=
  (r.status = RobotStatus.moving → r.current_task ≠ none) ∧
  (r.status = RobotStatus.working → r.current_task ≠ none) ∧
  (r.status = RobotStatus.idle → r.target_position = none)

theorem statusInv_mk (rid : String) (pos : Position) (mb : ℝ) :
    StatusInv (mkRobot rid pos mb) := by
  refine ⟨?_, ?_, ?_⟩ <;> intro h <;> simp [mkRobot] at h ⊢

theorem statusInv_assign (r : Robot) (t : Task) : StatusInv (assign_task r t) := by
  refine ⟨?_, ?_, ?_⟩ <;> intro h
  · simp [assign_task]
  · simp [assign_task] at h
  · simp [assign_task] at h

theorem statusInv_complete {r : Robot} (h : StatusInv r) :
    StatusInv (complete_current_task r) := by
  cases hct : r.current_task with
  | none => rw [complete_of_none hct]; exact h
  | some t =>
      rw [complete_of_some hct]
      refine ⟨?_, ?_, ?_⟩ <;> intro hh
      · simp at hh
      · simp at hh
      · rfl

theorem statusInv_chargeOne {r : Robot} (h : StatusInv r) : StatusInv (chargeOne r) := by
  rw [chargeOne]
  by_cases hc : r.battery_level < 90
  · rw [if_pos hc]
    refine ⟨?_, ?_, ?_⟩ <;> intro hh <;> simp at hh
  · rw [if_neg hc]
    exact h

theorem statusInv_estopRobot (r : Robot) :
    StatusInv { r with
      status := RobotStatus.idle, target_position := none, current_task := none } := by
  refine ⟨?_, ?_, ?_⟩ <;> intro hh
  · simp at hh
  · simp at hh
  · rfl

theorem statusInv_updateRobot (dt : ℝ) (r : Robot) (h : StatusInv r) :
    StatusInv (updateRobot dt r) := by
  obtain ⟨hm, hw, hi⟩ := h
  cases hst : r.status with
  | idle => simpa only [updateRobot, hst] using ⟨hm, hw, hi⟩
  | maintenance => simpa only [updateRobot, hst] using ⟨hm, hw, hi⟩
  | moving =>
      cases htg : r.target_position with
      | none => simpa only [updateRobot, hst, htg] using ⟨hm, hw, hi⟩
      | some tp =>
          simp only [updateRobot, hst, htg]
          obtain ⟨_, _, _, hct0, _, htg0⟩ := move_untouched r tp dt
          have htask : (move_towards_target r tp dt).1.current_task ≠ none := by
            rw [hct0]
            exact hm hst
          by_cases harr : (move_towards_target r tp dt).2 = true
          · rw [if_pos harr]
            cases hct : (move_towards_target r tp dt).1.current_task with
            | none => exact absurd hct htask
            | some task =>
                dsimp only
                by_cases hsp : tp = task.start_pos
                · rw [if_pos hsp]
                  refine ⟨?_, ?_, ?_⟩ <;> intro hh
                  · simp at hh
                  · simp
                  · simp at hh
                · rw [if_neg hsp]
                  exact statusInv_complete ⟨fun _ => htask, fun _ => htask, fun hidle => by
                    rw [move_status, hst] at hidle
                    by_cases hb : r.battery_level ≤ 5
                    · rw [if_pos hb] at hidle
                      exact absurd hidle (by simp)
                    · rw [if_neg hb] at hidle
                      exact absurd hidle (by simp)⟩
          · rw [if_neg harr]
            refine ⟨fun _ => htask, fun _ => htask, fun hidle => ?_⟩
            rw [move_status, hst] at hidle
            by_cases hb : r.battery_level ≤ 5
            · rw [if_pos hb] at hidle
              exact absurd hidle (by simp)
            · rw [if_neg hb] at hidle
              exact absurd hidle (by simp)
  | working =>
      cases htg : r.target_position with
      | none => simpa only [updateRobot, hst, htg] using ⟨hm, hw, hi⟩
      | some tp =>
          simp only [updateRobot, hst, htg]
          obtain ⟨_, _, _, hct0, _, htg0⟩ := move_untouched r tp dt
          have htask : (move_towards_target r tp dt).1.current_task ≠ none := by
            rw [hct0]
            exact hw hst
          by_cases harr : (move_towards_target r tp dt).2 = true
          · rw [if_pos harr]
            exact statusInv_complete ⟨fun _ => htask, fun _ => htask, fun hidle => by
              rw [move_status, hst] at hidle
              by_cases hb : r.battery_level ≤ 5
              · rw [if_pos hb] at hidle
                exact absurd hidle (by simp)
              · rw [if_neg hb] at hidle
                exact absurd hidle (by simp)⟩
          · rw [if_neg harr]
            refine ⟨fun _ => htask, fun _ => htask, fun hidle => ?_⟩
            rw [move_status, hst] at hidle
            by_cases hb : r.battery_level ≤ 5
            · rw [if_pos hb] at hidle
              exact absurd hidle (by simp)
            · rw [if_neg hb] at hidle
              exact absurd hidle (by simp)
  | charging =>
      obtain ⟨rid, pos, st, bat, maxb, spd, task, dist, comp, tgt⟩ := r
      simp only at hst
      subst hst
      simp only [updateRobot]
      set tp := Option.getD tgt (nearestStation pos) with htp
      set r0 : Robot :=
        ⟨rid, pos, RobotStatus.charging, bat, maxb, spd, task, dist, comp, some tp⟩ with hr0
      have hstat0 : (move_towards_target r0 tp dt).1.status = RobotStatus.charging := by
        rw [move_status]
        by_cases hb : r0.battery_level ≤ 5
        · rw [if_pos hb]
        · rw [if_neg hb]
      by_cases harr : (move_towards_target r0 tp dt).2 = true
      · rw [if_pos harr]
        set step := (move_towards_target r0 tp dt).1 with hstep
        by_cases hfull : ({ step with
              battery_level := min step.max_battery (step.battery_level + 20 * dt) }
                : Robot).max_battery * 0.9
            ≤ ({ step with
              battery_level := min step.max_battery (step.battery_level + 20 * dt) }
                : Robot).battery_level
        · rw [if_pos hfull]
          refine ⟨?_, ?_, ?_⟩ <;> intro hh
          · simp at hh
          · simp at hh
          · rfl
        · rw [if_neg hfull]
          refine ⟨?_, ?_, ?_⟩ <;> intro hh <;>
            · have : RobotStatus.charging = _ := hstat0.symm.trans hh
              simp at this
      · rw [if_neg harr]
        refine ⟨?_, ?_, ?_⟩ <;> intro hh <;>
          · have : RobotStatus.charging = _ := hstat0.symm.trans hh
            simp at this

end AMR

namespace AMR

/-! ### Reachability under the control-surface operations (claim C4's list) -/

/-- States reachable from freshly constructed fleets using exactly the
operations of claim C4: `update_fleet`, `add_task`, an assignment via the
scheduler, `emergency_stop` and `charge_all`. -/
inductive ReachableCtl : FleetState → Prop where
  | init (inits : List (String × Position × ℝ)) :
      ReachableCtl ⟨inits.map (fun x => mkRobot x.1 x.2.1 x.2.2), []⟩
  | addTask (S : FleetState) (t : Task) : ReachableCtl S →
      ReachableCtl ⟨S.robots, add_task S.pending t⟩
  | assignStep (S : FleetState) : ReachableCtl S → ReachableCtl (assignPhase S)
  | tick (S : FleetState) (dt : ℝ) : ReachableCtl S → ReachableCtl (updateFleet S dt)
  | estop (S : FleetState) : ReachableCtl S → ReachableCtl (emergencyStop S)
  | chargeAllOp (S : FleetState) : ReachableCtl S → ReachableCtl (chargeAll S)

theorem statusInv_reachableCtl {S : FleetState} (h : ReachableCtl S) :
    ∀ r ∈ S.robots, StatusInv r := by
  induction h with
  | init inits =>
      intro r hr
      rcases List.mem_map.mp hr with ⟨x, _, rfl⟩
      exact statusInv_mk _ _ _
  | addTask S t _ ih => exact ih
  | assignStep S _ ih => exact pred_assignPhase ih (fun r t _ => statusInv_assign r t)
  | tick S dt _ ih =>
      intro r hr
      rcases List.mem_map.mp hr with ⟨r0, hr0, rfl⟩
      exact statusInv_updateRobot dt r0
        (pred_assignPhase ih (fun r1 t _ => statusInv_assign r1 t) r0 hr0)
  | estop S _ ih =>
      intro r hr
      rcases List.mem_map.mp hr with ⟨r0, _, rfl⟩
      exact statusInv_estopRobot r0
  | chargeAllOp S _ ih =>
      intro r hr
      rcases List.mem_map.mp hr with ⟨r0, hr0, rfl⟩
      exact statusInv_chargeOne (ih r0 hr0)

/-! ### Claim C1 -/

/-- C1: for every robot of every reachable simulation state (construction,
task assignment, movement steps, task completion, fleet ticks with the kind of
`dt` the dashboard uses, plus the remaining core operations), the battery
level satisfies `0 ≤ battery_level ≤ max_battery`; every mutation of the
battery clamps it into this interval. -/
theorem c1_battery_bounds (S : FleetState) (h : Reachable S) :
    ∀ r ∈ S.robots, 0 ≤ r.battery_level ∧ r.battery_level ≤ r.max_battery :=
  fun r hr => ⟨(batInv_reachable h r hr).1, (batInv_reachable h r hr).2.1⟩

/-- Witness for C1 at a concrete reachable state. -/
theorem c1_battery_bounds_witness :
    0 ≤ (mkRobot "AMR-01" ⟨10, 10⟩ 100).battery_level ∧
      (mkRobot "AMR-01" ⟨10, 10⟩ 100).battery_level
        ≤ (mkRobot "AMR-01" ⟨10, 10⟩ 100).max_battery :=
  c1_battery_bounds ⟨[("AMR-01", ⟨10, 10⟩, 100)].map (fun x => mkRobot x.1 x.2.1 x.2.2), []⟩
    (Reachable.init [("AMR-01", ⟨10, 10⟩, 100)]
      (by intro x hx; rw [List.mem_singleton] at hx; subst hx; norm_num))
    (mkRobot "AMR-01" ⟨10, 10⟩ 100) (List.mem_singleton.mpr rfl)

/-! ### Claim C4: counterexample and amended invariant -/

/-- The task used in the C4 counterexample trace. -/
def cexTask : Task :=
  { id := "T1", task_type := TaskType.pickup, start_pos := ⟨3, 4⟩, end_pos := ⟨6, 8⟩,
    priority := 3, estimated_duration := 10, assigned_robot := none }

/-- The robot produced by the counterexample trace: it sits in `charging`
status while still holding its task. -/
def cexRobot : Robot :=
  { id := "R1", position := ⟨0, 0⟩, status := RobotStatus.charging, battery_level := 50,
    max_battery := 50, speed := 2.0, current_task :=
      (some { cexTask with assigned_robot := (some "R1") }),
    total_distance_traveled := 0.0, tasks_completed := 0, target_position := none }

theorem cex_avail : availIdx 0 [mkRobot "R1" ⟨0, 0⟩ 50] = [(0, mkRobot "R1" ⟨0, 0⟩ 50)] := by
  rw [availIdx, if_pos]
  · rfl
  · exact ⟨rfl, by norm_num [mkRobot]⟩

theorem cex_sched :
    assign_optimal_robot [cexTask] [mkRobot "R1" ⟨0, 0⟩ 50]
      = (some (0, mkRobot "R1" ⟨0, 0⟩ 50, cexTask), []) := by
  have hcand : candidates [cexTask] [mkRobot "R1" ⟨0, 0⟩ 50]
      = [(0, mkRobot "R1" ⟨0, 0⟩ 50, cexTask)] := by
    simp [candidates, cex_avail]
  have hfold : (candidates [cexTask] [mkRobot "R1" ⟨0, 0⟩ 50]).foldl bestStep none
      = some ((0, mkRobot "R1" ⟨0, 0⟩ 50, cexTask),
          candScore (0, mkRobot "R1" ⟨0, 0⟩ 50, cexTask)) := by
    rw [hcand]
    rfl
  have h := assign_eq_of_fold [cexTask] [mkRobot "R1" ⟨0, 0⟩ 50] _ _
    (List.cons_ne_nil _ _) (by rw [cex_avail]; exact List.cons_ne_nil _ _) hfold
  rw [h]
  show (_, removeTask [cexTask] cexTask) = _
  rw [removeTask, if_pos rfl]

/-- The C4 counterexample state: one robot, reached by `init`, `add_task`,
one scheduler assignment, then `charge_all`. -/
def cexState : FleetState := ⟨[cexRobot], []⟩

theorem cex_trace : chargeAll (assignPhase ⟨[mkRobot "R1" ⟨0, 0⟩ 50], [cexTask]⟩)
    = cexState := by
  have h1 : assignPhase ⟨[mkRobot "R1" ⟨0, 0⟩ 50], [cexTask]⟩
      = ⟨[assign_task (mkRobot "R1" ⟨0, 0⟩ 50) cexTask], []⟩ := by
    rw [assignPhase]
    rw [cex_sched]
    rfl
  rw [h1]
  show (⟨[chargeOne (assign_task (mkRobot "R1" ⟨0, 0⟩ 50) cexTask)], []⟩ : FleetState) = _
  rw [chargeOne, if_pos (by norm_num [assign_task, mkRobot])]
  rfl

/-- C4 counterexample: a reachable state (using only C4's operation list)
contains a robot whose `current_task` is non-empty while its status is
`charging` — not `moving` or `working` — so the claimed invariant is false.
(`charge_all` forces `Charging` without clearing `current_task`; the
spec's §9 itself flags this dangling-task behaviour.) -/
theorem c4_counterexample :
    ReachableCtl cexState ∧ cexRobot ∈ cexState.robots ∧
      cexRobot.current_task ≠ none ∧
      cexRobot.status ≠ RobotStatus.moving ∧ cexRobot.status ≠ RobotStatus.working := by
  refine ⟨?_, List.mem_singleton.mpr rfl, ?_, ?_, ?_⟩
  · have h0 : ReachableCtl ⟨[mkRobot "R1" ⟨0, 0⟩ 50], []⟩ :=
      ReachableCtl.init [("R1", ⟨0, 0⟩, 50)]
    have h1 : ReachableCtl ⟨[mkRobot "R1" ⟨0, 0⟩ 50], [cexTask]⟩ := by
      have := ReachableCtl.addTask _ cexTask h0
      simpa [add_task] using this
    have h2 := ReachableCtl.chargeAllOp _ (ReachableCtl.assignStep _ h1)
    rw [cex_trace] at h2
    exact h2
  · simp [cexRobot]
  · simp [cexRobot]
  · simp [cexRobot]

/-- C4 (amended): in every state reachable by C4's operations, a `Moving`
robot has a non-empty `current_task`, a `Working` robot has a non-empty
`current_task`, and an `Idle` robot has no target; but `current_task` can be
non-empty outside `Moving`/`Working` (a robot forced into `Charging` by
`charge_all` or a low-battery abort keeps its dangling task), so only this
direction of the claimed coupling holds. -/
theorem c4_status_task_coupling (S : FleetState) (h : ReachableCtl S) :
    ∀ r ∈ S.robots,
      (r.status = RobotStatus.moving → r.current_task ≠ none) ∧
      (r.status = RobotStatus.working → r.current_task ≠ none) ∧
      (r.status = RobotStatus.idle → r.target_position = none) :=
  statusInv_reachableCtl h

/-- Witness for C4's amended theorem at a concrete reachable state. -/
theorem c4_status_task_coupling_witness :
    ((mkRobot "R1" ⟨0, 0⟩ 50).status = RobotStatus.moving
        → (mkRobot "R1" ⟨0, 0⟩ 50).current_task ≠ none) ∧
    ((mkRobot "R1" ⟨0, 0⟩ 50).status = RobotStatus.working
        → (mkRobot "R1" ⟨0, 0⟩ 50).current_task ≠ none) ∧
    ((mkRobot "R1" ⟨0, 0⟩ 50).status = RobotStatus.idle
        → (mkRobot "R1" ⟨0, 0⟩ 50).target_position = none) :=
  c4_status_task_coupling ⟨[("R1", ⟨0, 0⟩, 50)].map (fun x => mkRobot x.1 x.2.1 x.2.2), []⟩
    (ReachableCtl.init [("R1", ⟨0, 0⟩, 50)])
    (mkRobot "R1" ⟨0, 0⟩ 50) (List.mem_singleton.mpr rfl)

end AMR

namespace AMR

/-! ### Claim C6: one physics step -/

/-- C6: one `move_towards_target` step of a robot with battery above 5 and
`dt > 0`.  If the remaining distance is below 0.5 the position snaps exactly
onto the target and the step reports arrival with battery and
`total_distance_traveled` unchanged; otherwise the robot moves exactly
`min(speed*dt, d)` along the unit vector toward the target (so the remaining
distance drops by exactly that amount), `total_distance_traveled` grows by the
moved distance, the battery drops by `moved * 0.1` clamped at 0, and the step
reports "not arrived". -/
theorem c6_move_step_spec (r : Robot) (t : Position) (dt : ℝ)
    (hb : 5 < r.battery_level) (hdt : 0 < dt) :
    (r.position.distance_to t < 0.5 →
      move_towards_target r t dt = ({ r with position := t }, true)) ∧
    (0.5 ≤ r.position.distance_to t →
      (move_towards_target r t dt).2 = false ∧
      (move_towards_target r t dt).1.position.x
        = r.position.x + (t.x - r.position.x) / r.position.distance_to t
            * min (r.speed * dt) (r.position.distance_to t) ∧
      (move_towards_target r t dt).1.position.y
        = r.position.y + (t.y - r.position.y) / r.position.distance_to t
            * min (r.speed * dt) (r.position.distance_to t) ∧
      (move_towards_target r t dt).1.total_distance_traveled
        = r.total_distance_traveled + min (r.speed * dt) (r.position.distance_to t) ∧
      (move_towards_target r t dt).1.battery_level
        = max 0 (r.battery_level - min (r.speed * dt) (r.position.distance_to t) * 0.1) ∧
      (move_towards_target r t dt).1.position.distance_to t
        = r.position.distance_to t - min (r.speed * dt) (r.position.distance_to t)) := by
  have hb' : ¬ r.battery_level ≤ 5 := not_le.mpr hb
  constructor
  · intro hd
    exact move_snap dt hb' hd
  · intro hd
    have hd' : ¬ r.position.distance_to t < 0.5 := not_lt.mpr hd
    rw [move_far dt hb' hd']
    refine ⟨rfl, rfl, rfl, rfl, rfl, ?_⟩
    rw [← move_far dt hb' hd', move_dist_step t dt hb', if_neg hd']

/-- Witness for C6: a robot already within the arrival tolerance snaps onto
the target. -/
theorem c6_move_step_spec_witness :
    move_towards_target (mkRobot "W6" ⟨0, 0⟩ 100) ⟨0, 0⟩ 1
      = ({ mkRobot "W6" ⟨0, 0⟩ 100 with position := ⟨0, 0⟩ }, true) :=
  (c6_move_step_spec (mkRobot "W6" ⟨0, 0⟩ 100) ⟨0, 0⟩ 1
      (by norm_num [mkRobot]) (by norm_num)).1
    (by show (⟨0, 0⟩ : Position).distance_to ⟨0, 0⟩ < 0.5
        rw [distance_to_self]
        norm_num)

/-! ### Claim C3: the low-battery abort -/

/-- C3 (amended): when a movement step runs with battery ≤ 5, the step aborts
(returns "not arrived") and only flips the status to `Charging`, leaving the
position, battery, `current_task` and `target` unchanged; on the next tick the
Charging branch leaves a non-`none` target untouched (driving toward the old
target), and overwrites the target with the nearest charging station only when
the target is `none` — not unconditionally, as the original claim stated. -/
theorem c3_lowbat_abort (r : Robot) (tp : Position) (dt : ℝ)
    (hb : r.battery_level ≤ 5) :
    (move_towards_target r tp dt = ({ r with status := RobotStatus.charging }, false)) ∧
    (r.status = RobotStatus.charging → r.target_position = some tp →
        updateRobot dt r = r) ∧
    (r.status = RobotStatus.charging → r.target_position = none →
        updateRobot dt r
          = { r with target_position := (some (nearestStation r.position)) }) := by
  refine ⟨move_lowBattery tp dt hb, ?_, ?_⟩
  · intro hs ht
    exact updateRobot_charging_stuck_of_target hs hb ht
  · intro hs ht
    rw [updateRobot_charging_stuck dt r hs hb, ht]
    rfl

/-- Witness for C3's amended theorem at a concrete drained robot. -/
theorem c3_lowbat_abort_witness :
    (move_towards_target (mkRobot "W3" ⟨1, 1⟩ 4) ⟨9, 9⟩ 1
        = ({ mkRobot "W3" ⟨1, 1⟩ 4 with status := RobotStatus.charging }, false)) ∧
    ((mkRobot "W3" ⟨1, 1⟩ 4).status = RobotStatus.charging
        → (mkRobot "W3" ⟨1, 1⟩ 4).target_position = some ⟨9, 9⟩
        → updateRobot 1 (mkRobot "W3" ⟨1, 1⟩ 4) = mkRobot "W3" ⟨1, 1⟩ 4) ∧
    ((mkRobot "W3" ⟨1, 1⟩ 4).status = RobotStatus.charging
        → (mkRobot "W3" ⟨1, 1⟩ 4).target_position = none
        → updateRobot 1 (mkRobot "W3" ⟨1, 1⟩ 4)
          = { mkRobot "W3" ⟨1, 1⟩ 4 with
              target_position := (some (nearestStation (⟨1, 1⟩ : Position))) }) :=
  c3_lowbat_abort (mkRobot "W3" ⟨1, 1⟩ 4) ⟨9, 9⟩ 1 (by norm_num [mkRobot])

/-- The task of the C3 counterexample. -/
def c3Task : Task :=
  { id := "T3", task_type := TaskType.delivery, start_pos := ⟨10, 0⟩, end_pos := ⟨20, 0⟩,
    priority := 1, estimated_duration := 5, assigned_robot := (some "R3") }

/-- The robot of the C3 counterexample: mid-task, battery exactly 5. -/
def c3Robot : Robot :=
  { id := "R3", position := ⟨0, 0⟩, status := RobotStatus.moving, battery_level := 5,
    max_battery := 100, speed := 2.0, current_task := (some c3Task),
    total_distance_traveled := 0.0, tasks_completed := 0,
    target_position := (some ⟨10, 0⟩) }

theorem c3_tick1 : updateFleet ⟨[c3Robot], []⟩ 1
    = ⟨[{ c3Robot with status := RobotStatus.charging }], []⟩ := by
  show (⟨[updateRobot 1 c3Robot], []⟩ : FleetState) = _
  rw [updateRobot_lowbat_moving rfl (by norm_num [c3Robot]) rfl]

theorem c3_tick2 : updateFleet ⟨[{ c3Robot with status := RobotStatus.charging }], []⟩ 1
    = ⟨[{ c3Robot with status := RobotStatus.charging }], []⟩ := by
  show (⟨[updateRobot 1 { c3Robot with status := RobotStatus.charging }], []⟩ : FleetState) = _
  rw [updateRobot_charging_stuck_of_target rfl (by norm_num [c3Robot]) rfl]

/-- C3 counterexample: after the low-battery abort of a moving robot, the next
tick's Charging branch does NOT overwrite the robot's target with the nearest
charging station — the target stays the old movement target `(10, 0)`, which
is not a charging station at all. -/
theorem c3_counterexample :
    (updateFleet (updateFleet ⟨[c3Robot], []⟩ 1) 1).robots
        = [{ c3Robot with status := RobotStatus.charging }] ∧
    ({ c3Robot with status := RobotStatus.charging } : Robot).target_position
        = some ⟨10, 0⟩ ∧
    (⟨10, 0⟩ : Position) ∉ chargingStations := by
  refine ⟨?_, rfl, ?_⟩
  · rw [c3_tick1, c3_tick2]
  · intro hmem
    rw [chargingStations] at hmem
    rcases List.mem_cons.mp hmem with h | hmem
    · have : (10 : ℝ) = 5 := congrArg Position.x h
      norm_num at this
    rcases List.mem_cons.mp hmem with h | hmem
    · have : (10 : ℝ) = 45 := congrArg Position.x h
      norm_num at this
    rcases List.mem_cons.mp hmem with h | hmem
    · have : (10 : ℝ) = 25 := congrArg Position.x h
      norm_num at this
    · simp at hmem

/-! ### Claim C5: a drained charging robot is stuck forever -/

/-- C5: a robot in `Charging` status with battery ≤ 5 is permanently stuck:
over any sequence of subsequent ticks its position never changes, its battery
never increases (it stays exactly the same, the charging line is never
reached), its task reference stays dangling, and it remains `Charging`
forever — in particular it never returns to `Idle`. -/
theorem c5_charging_stuck (S : FleetState) (i : ℕ) (r : Robot)
    (h : S.robots.get? i = some r) (hs : r.status = RobotStatus.charging)
    (hb : r.battery_level ≤ 5) (dts : List ℝ) :
    ∃ r', (dts.foldl updateFleet S).robots.get? i = some r' ∧
      r'.position = r.position ∧ r'.battery_level = r.battery_level ∧
      r'.current_task = r.current_task ∧ r'.status = RobotStatus.charging := by
  induction dts generalizing S r with
  | nil => exact ⟨r, h, rfl, rfl, rfl, hs⟩
  | cons dt dts ih =>
      have hne : r.status ≠ RobotStatus.idle := by
        rw [hs]
        simp
      have hstep := updateFleet_get?_of_not_idle dt h hne
      rw [updateRobot_charging_stuck dt r hs hb] at hstep
      rw [List.foldl_cons]
      rcases ih (updateFleet S dt) _ hstep hs hb with ⟨r', h1, h2, h3, h4, h5⟩
      exact ⟨r', h1, h2, h3, h4, h5⟩

/-- The robot of the C5 witness: charging, battery 4, station target set. -/
def c5Robot : Robot :=
  { id := "R5", position := ⟨7, 7⟩, status := RobotStatus.charging, battery_level := 4,
    max_battery := 100, speed := 2.0, current_task := none,
    total_distance_traveled := 3.0, tasks_completed := 1,
    target_position := (some ⟨5, 5⟩) }

/-- Witness for C5: two concrete ticks leave the drained charging robot in
place, uncharged and still `Charging`. -/
theorem c5_charging_stuck_witness :
    ∃ r', (([1, 1] : List ℝ).foldl updateFleet ⟨[c5Robot], []⟩).robots.get? 0 = some r' ∧
      r'.position = c5Robot.position ∧ r'.battery_level = c5Robot.battery_level ∧
      r'.current_task = c5Robot.current_task ∧ r'.status = RobotStatus.charging :=
  c5_charging_stuck ⟨[c5Robot], []⟩ 0 c5Robot rfl rfl (by norm_num [c5Robot]) [1, 1]

end AMR

namespace AMR

/-! ### Claim C2: the scheduler's assignment -/

/-- C2: `assign_optimal_robot` returns `none` exactly when the pending list is
empty or no robot is Idle with battery above 20 (and then leaves the pending
list unchanged); on a match it returns an eligible robot of the fleet together
with a pending task whose cost `distance + (100 - battery) * 0.1` is minimal
over all eligible robots and all pending tasks, and the returned pending list
is the old one with exactly that task (its first occurrence) removed, the rest
kept in order.  The robot list itself is never modified by the call. -/
theorem c2_assign_optimal_spec (pending : List Task) (robots : List Robot) :
    ((assign_optimal_robot pending robots).1 = none
        ↔ pending = [] ∨ ∀ r ∈ robots, ¬ eligible r) ∧
    ((assign_optimal_robot pending robots).1 = none →
        (assign_optimal_robot pending robots).2 = pending) ∧
    (∀ i r t, (assign_optimal_robot pending robots).1 = some (i, r, t) →
      robots.get? i = some r ∧ eligible r ∧ t ∈ pending ∧
      (∀ r' t', (∃ j, robots.get? j = some r') → eligible r' → t' ∈ pending →
          score r t ≤ score r' t') ∧
      ∃ l1 l2, pending = l1 ++ t :: l2 ∧
        (assign_optimal_robot pending robots).2 = l1 ++ l2 ∧ t ∉ l1) := by
  refine ⟨assign_none_iff pending robots, fun h => assign_none_pending h, ?_⟩
  intro i r t h
  rcases assign_some_spec h with ⟨h1, h2, h3, h4, h5⟩
  rcases removeTask_of_mem h3 with ⟨l1, l2, hdec, hrem, hnot⟩
  exact ⟨h1, h2, h3, h5, l1, l2, hdec, by rw [h4, hrem], hnot⟩

/-- Witness for C2 at a one-robot, one-task scheduler call. -/
theorem c2_assign_optimal_spec_witness :
    [mkRobot "R1" ⟨0, 0⟩ 50].get? 0 = some (mkRobot "R1" ⟨0, 0⟩ 50) ∧
    eligible (mkRobot "R1" ⟨0, 0⟩ 50) ∧ cexTask ∈ [cexTask] ∧
    (∀ r' t', (∃ j, [mkRobot "R1" ⟨0, 0⟩ 50].get? j = some r') → eligible r' →
        t' ∈ [cexTask] → score (mkRobot "R1" ⟨0, 0⟩ 50) cexTask ≤ score r' t') ∧
    ∃ l1 l2, [cexTask] = l1 ++ cexTask :: l2 ∧
      (assign_optimal_robot [cexTask] [mkRobot "R1" ⟨0, 0⟩ 50]).2 = l1 ++ l2 ∧
      cexTask ∉ l1 :=
  (c2_assign_optimal_spec [cexTask] [mkRobot "R1" ⟨0, 0⟩ 50]).2.2
    0 (mkRobot "R1" ⟨0, 0⟩ 50) cexTask (by rw [cex_sched])

/-! ### Claim C8: pending-queue ordering and stability -/

/-- C8: after any sequence of `add_task` calls on an initially empty
scheduler, the pending list is pairwise sorted by descending priority, and for
every priority the sublist of tasks of that priority equals (order included)
the sublist of that priority in the insertion sequence — i.e. equal-priority
tasks appear in insertion order (per-insertion re-sorting is stable). -/
theorem c8_pending_sorted_stable (ts : List Task) :
    List.Sorted prioGE (pendingAfter ts) ∧
    ∀ p : ℤ, (pendingAfter ts).filter (fun a => decide (a.priority = p))
      = ts.filter (fun a => decide (a.priority = p)) := by
  rcases foldl_add_task_spec ts [] List.sorted_nil with ⟨h1, h2⟩
  refine ⟨h1, fun p => ?_⟩
  rw [pendingAfter, h2 p]
  simp

/-! ### Claim C9: one tick makes at most one assignment -/

/-- C9: a single `update_fleet` call removes at most one task from the pending
queue — none when the scheduler finds no match (all robots untouched by the
assignment phase), and exactly the matched task at the moment of assignment
otherwise; the matched robot's fields become `current_task = task` (with
`task.assigned_robot = robot.id` visible through it), `status = Moving`,
`target = task.start_pos`, and every other robot is untouched by the
assignment phase. -/
theorem c9_single_assignment (S : FleetState) (dt : ℝ) :
    ((assign_optimal_robot S.pending S.robots).1 = none →
        (updateFleet S dt).pending = S.pending ∧ (assignPhase S).robots = S.robots) ∧
    (∀ i r t, (assign_optimal_robot S.pending S.robots).1 = some (i, r, t) →
        t ∈ S.pending ∧
        (updateFleet S dt).pending = removeTask S.pending t ∧
        S.robots.get? i = some r ∧
        (assignPhase S).robots.get? i = some (assign_task r t) ∧
        (∀ j, j ≠ i → (assignPhase S).robots.get? j = S.robots.get? j) ∧
        assign_task r t = { r with
            status := RobotStatus.moving,
            current_task := (some { t with assigned_robot := (some r.id) }),
            target_position := (some t.start_pos) }) := by
  constructor
  · intro h
    cases hres : assign_optimal_robot S.pending S.robots with
    | mk res pending' =>
        cases res with
        | some c =>
            rw [hres] at h
            exact absurd h (by simp)
        | none =>
            have heq : assignPhase S = S := by rw [assignPhase, hres]
            constructor
            · show (assignPhase S).pending = S.pending
              rw [heq]
            · rw [heq]
  · intro i r t h
    rcases assign_some_spec h with ⟨h1, h2, h3, h4, h5⟩
    cases hres : assign_optimal_robot S.pending S.robots with
    | mk res pending' =>
        have hsome : res = some (i, r, t) := by
          have := hres ▸ h
          simpa using this
        subst hsome
        have heq : assignPhase S
            = ⟨updateAt S.robots i (fun r0 => assign_task r0 t), pending'⟩ := by
          rw [assignPhase, hres]
        have hpend : pending' = removeTask S.pending t := by
          have := hres ▸ h4
          simpa using this
        refine ⟨h3, ?_, h1, ?_, ?_, rfl⟩
        · show (assignPhase S).pending = removeTask S.pending t
          rw [heq, hpend]
        · rw [heq]
          exact updateAt_get?_self _ h1
        · intro j hj
          rw [heq]
          exact updateAt_get?_other _ j (fun hk => hj (hk ▸ rfl))

/-- Witness for C9 at a one-robot, one-task tick. -/
theorem c9_single_assignment_witness :
    cexTask ∈ (⟨[mkRobot "R1" ⟨0, 0⟩ 50], [cexTask]⟩ : FleetState).pending ∧
    (updateFleet ⟨[mkRobot "R1" ⟨0, 0⟩ 50], [cexTask]⟩ 1).pending
        = removeTask [cexTask] cexTask ∧
    ([mkRobot "R1" ⟨0, 0⟩ 50] : List Robot).get? 0 = some (mkRobot "R1" ⟨0, 0⟩ 50) ∧
    (assignPhase ⟨[mkRobot "R1" ⟨0, 0⟩ 50], [cexTask]⟩).robots.get? 0
        = some (assign_task (mkRobot "R1" ⟨0, 0⟩ 50) cexTask) ∧
    (∀ j, j ≠ 0 → (assignPhase ⟨[mkRobot "R1" ⟨0, 0⟩ 50], [cexTask]⟩).robots.get? j
        = ([mkRobot "R1" ⟨0, 0⟩ 50] : List Robot).get? j) ∧
    assign_task (mkRobot "R1" ⟨0, 0⟩ 50) cexTask = { mkRobot "R1" ⟨0, 0⟩ 50 with
        status := RobotStatus.moving,
        current_task := (some { cexTask with assigned_robot := (some "R1") }),
        target_position := (some cexTask.start_pos) } :=
  (c9_single_assignment ⟨[mkRobot "R1" ⟨0, 0⟩ 50], [cexTask]⟩ 1).2
    0 (mkRobot "R1" ⟨0, 0⟩ 50) cexTask (by rw [cex_sched])

/-! ### Claim C10: send all to charge -/

/-- C10: `charge_all` (the `sendAllToCharge` capability; its threshold is the
source's fixed constant 90) forces every robot whose battery is below 90 into
`Charging` with its target cleared, and leaves every robot at or above 90 —
and the pending queue — unchanged.  In particular a battery-50 robot ends in
`Charging` with `target = none`. -/
theorem c10_charge_all_spec (S : FleetState) :
    (∀ i r, S.robots.get? i = some r →
      (r.battery_level < 90 →
        (chargeAll S).robots.get? i
          = some { r with status := RobotStatus.charging, target_position := none }) ∧
      (¬ r.battery_level < 90 → (chargeAll S).robots.get? i = some r)) ∧
    (chargeAll S).pending = S.pending := by
  refine ⟨?_, rfl⟩
  intro i r h
  constructor
  · intro hc
    show (S.robots.map chargeOne).get? i = _
    rw [List.get?_map, h]
    show some (chargeOne r) = _
    rw [chargeOne, if_pos hc]
  · intro hc
    show (S.robots.map chargeOne).get? i = _
    rw [List.get?_map, h]
    show some (chargeOne r) = _
    rw [chargeOne, if_neg hc]

/-- Witness for C10: a battery-50 robot is forced into `Charging` with its
target cleared. -/
theorem c10_charge_all_spec_witness :
    (chargeAll ⟨[mkRobot "W10" ⟨2, 2⟩ 50], []⟩).robots.get? 0
      = some { mkRobot "W10" ⟨2, 2⟩ 50 with
          status := RobotStatus.charging, target_position := none } :=
  ((c10_charge_all_spec ⟨[mkRobot "W10" ⟨2, 2⟩ 50], []⟩).1 0 (mkRobot "W10" ⟨2, 2⟩ 50)
      rfl).1 (by norm_num [mkRobot])

end AMR

namespace AMR

/-! ### Claim C7: arrival bound for repeated stepping -/

/-- `n` repeated `move_towards_target` steps toward a fixed target. -/
noncomputable def iterMove (r : Robot) (t : Position) (dt : ℝ) : ℕ → Robot
  | 0 => r
  | n + 1 => (move_towards_target (iterMove r t dt n) t dt).1

theorem iterMove_speed (r : Robot) (t : Position) (dt : ℝ) :
    ∀ n, (iterMove r t dt n).speed = r.speed := by
  intro n
  induction n with
  | zero => rfl
  | succ k ih =>
      show (move_towards_target (iterMove r t dt k) t dt).1.speed = r.speed
      rw [(move_untouched _ t dt).2.2.1, ih]

theorem iterMove_dist_le (r : Robot) (t : Position) (dt : ℝ)
    (hsd : 0 < r.speed * dt) :
    ∀ n, (∀ k < n, 5 < (iterMove r t dt k).battery_level) →
    (iterMove r t dt n).position.distance_to t
      ≤ max (r.position.distance_to t - n * (r.speed * dt)) 0 := by
  intro n
  induction n with
  | zero =>
      intro _
      rw [show iterMove r t dt 0 = r from rfl, Nat.cast_zero, zero_mul, sub_zero]
      exact le_max_left _ _
  | succ k ih =>
      intro hbat
      have hbk : 5 < (iterMove r t dt k).battery_level := hbat k (Nat.lt_succ_self k)
      have ihk := ih (fun j hj => hbat j (Nat.lt_succ_of_lt hj))
      have hd := move_dist_step t dt (not_le.mpr hbk)
      rw [iterMove_speed] at hd
      show (move_towards_target (iterMove r t dt k) t dt).1.position.distance_to t ≤ _
      rw [hd]
      by_cases hlt : (iterMove r t dt k).position.distance_to t < 0.5
      · rw [if_pos hlt]
        exact le_max_right _ _
      · rw [if_neg hlt]
        have hge : 0.5 ≤ (iterMove r t dt k).position.distance_to t := not_lt.mp hlt
        by_cases hmin : r.speed * dt ≤ (iterMove r t dt k).position.distance_to t
        · rw [min_eq_left hmin]
          have h1 : (iterMove r t dt k).position.distance_to t
              ≤ r.position.distance_to t - k * (r.speed * dt) := by
            rcases le_max_iff.mp ihk with h | h
            · exact h
            · linarith
          refine le_trans ?_ (le_max_left _ _)
          push_cast
          linarith
        · rw [min_eq_right (le_of_lt (not_le.mp hmin))]
          simpa using le_max_right _ _

/-- Battery after `n` steps: each step drains at most `speed * dt * 0.1`. -/
theorem iterMove_battery (r : Robot) (t : Position) (dt : ℝ) (hsd : 0 ≤ r.speed * dt) :
    ∀ n : ℕ, r.battery_level - n * (r.speed * dt * 0.1)
      ≤ (iterMove r t dt n).battery_level := by
  intro n
  induction n with
  | zero =>
      rw [show iterMove r t dt 0 = r from rfl, Nat.cast_zero, zero_mul, sub_zero]
  | succ k ih =>
      have hlow := move_battery_lower (iterMove r t dt k) t dt
        (by rw [iterMove_speed]; exact hsd)
      rw [iterMove_speed] at hlow
      show _ ≤ (move_towards_target (iterMove r t dt k) t dt).1.battery_level
      push_cast
      nlinarith [ih, hlow]

/-- C7: a robot stepped repeatedly toward a fixed target with `dt > 0`,
positive speed, and a battery that stays above the low-battery trigger
throughout, has position exactly equal to the target — and hence distance
`0 < 0.5`, i.e. has arrived — within `ceil(initial_distance / (speed * dt))`
steps. -/
theorem c7_arrival (r : Robot) (t : Position) (dt : ℝ)
    (hdt : 0 < dt) (hsp : 0 < r.speed)
    (hbat : ∀ k < Nat.ceil (r.position.distance_to t / (r.speed * dt)),
        5 < (iterMove r t dt k).battery_level) :
    (iterMove r t dt (Nat.ceil (r.position.distance_to t / (r.speed * dt)))).position
        = t ∧
    (iterMove r t dt
        (Nat.ceil (r.position.distance_to t / (r.speed * dt)))).position.distance_to t
      < 0.5 := by
  have hsd : 0 < r.speed * dt := mul_pos hsp hdt
  have hle := iterMove_dist_le r t dt hsd
    (Nat.ceil (r.position.distance_to t / (r.speed * dt))) hbat
  have h1 : r.position.distance_to t / (r.speed * dt)
      ≤ (Nat.ceil (r.position.distance_to t / (r.speed * dt)) : ℝ) := Nat.le_ceil _
  have hNd : r.position.distance_to t
      ≤ (Nat.ceil (r.position.distance_to t / (r.speed * dt)) : ℝ) * (r.speed * dt) := by
    have h2 := mul_le_mul_of_nonneg_right h1 (le_of_lt hsd)
    rw [div_mul_cancel₀ _ (ne_of_gt hsd)] at h2
    exact h2
  have hmax : max (r.position.distance_to t
      - (Nat.ceil (r.position.distance_to t / (r.speed * dt)) : ℝ) * (r.speed * dt)) 0
      = 0 := max_eq_right (by linarith)
  rw [hmax] at hle
  have hzero : (iterMove r t dt
      (Nat.ceil (r.position.distance_to t / (r.speed * dt)))).position.distance_to t
      = 0 := le_antisymm hle (distance_to_nonneg _ _)
  refine ⟨distance_to_eq_zero_iff.mp hzero, ?_⟩
  rw [hzero]
  norm_num

theorem sqrt_eval {a b : ℝ} (hb : 0 ≤ b) (h : b ^ 2 = a) : Real.sqrt a = b := by
  rw [← h, Real.sqrt_sq hb]

theorem c7dist : (⟨0, 0⟩ : Position).distance_to ⟨10, 0⟩ = 10 := by
  rw [Position.distance_to]
  exact sqrt_eval (by norm_num) (by norm_num)

/-- Witness for C7 (the spec's own scenario): robot at the origin with speed 2
and full battery, target `(10, 0)`, `dt = 1` — after exactly
`ceil(10 / 2) = 5` steps its position is exactly `(10, 0)`. -/
theorem c7_arrival_witness :
    (iterMove (mkRobot "W7" ⟨0, 0⟩ 100) ⟨10, 0⟩ 1 5).position = ⟨10, 0⟩ := by
  have hd : (mkRobot "W7" ⟨0, 0⟩ 100).position.distance_to ⟨10, 0⟩ = 10 := c7dist
  have hN : Nat.ceil ((mkRobot "W7" ⟨0, 0⟩ 100).position.distance_to ⟨10, 0⟩
      / ((mkRobot "W7" ⟨0, 0⟩ 100).speed * 1)) = 5 := by
    rw [hd]
    show Nat.ceil ((10 : ℝ) / (2.0 * 1)) = 5
    rw [show (10 : ℝ) / (2.0 * 1) = 5 by norm_num]
    simp
  have hbat : ∀ k < Nat.ceil ((mkRobot "W7" ⟨0, 0⟩ 100).position.distance_to ⟨10, 0⟩
      / ((mkRobot "W7" ⟨0, 0⟩ 100).speed * 1)),
      5 < (iterMove (mkRobot "W7" ⟨0, 0⟩ 100) ⟨10, 0⟩ 1 k).battery_level := by
    intro k hk
    rw [hN] at hk
    have hk4 : (k : ℝ) ≤ 4 := by exact_mod_cast Nat.lt_succ_iff.mp hk
    have hlow := iterMove_battery (mkRobot "W7" ⟨0, 0⟩ 100) ⟨10, 0⟩ 1
      (by norm_num [mkRobot]) k
    have hlow' : (100 : ℝ) - (k : ℝ) * ((2.0 : ℝ) * 1 * 0.1)
        ≤ (iterMove (mkRobot "W7" ⟨0, 0⟩ 100) ⟨10, 0⟩ 1 k).battery_level := hlow
    norm_num at hlow'
    linarith
  have h := (c7_arrival (mkRobot "W7" ⟨0, 0⟩ 100) ⟨10, 0⟩ 1 (by norm_num)
      (by norm_num [mkRobot]) hbat).1
  rw [hN] at h
  exact h

end AMR
